import Mathlib

/-!
Verification of the blacklist plugin and the elasticsearch plugin.

The development shallowly embeds the relevant program fragments:

* the canonical blacklist fingerprint (`generate_hash` in
  blacklist_plugin.cpp), including a full executable SHA-256 so that the
  fingerprint function is the real one;
* the hash reconciliation verdict (`check_hash`);
* the on-chain table read for the submitted per-producer hash
  (`get_submitted_hash`);
* the bounded stream queue with adaptive producer sleep
  (`elasticsearch_plugin_impl::queue`);
* the ABI cache with least-recently-accessed eviction
  (`purge_abi_cache` / `get_abi_serializer`);
* the start-block gate (`process_accepted_block`);
* the document store client error discipline (elasticsearch_client.cpp);
* an interleaving model of the producer/consumer pipeline
  (`queue` / `consume_blocks`).

Machine integers are modelled as `Nat`/`Int` with explicit reductions
modulo 2 to the 32 where overflow matters.  External collaborators (the
chain controller, the HTTP transport, fc JSON parsing) appear as inputs:
table rows, HTTP responses and fetched ABI descriptors are parameters of
the embedded functions.
-/

/- ------------------------------------------------------------------ -/
/- SHA-256, the hash used by fc::sha256::hash on the canonical string. -/
/- ------------------------------------------------------------------ -/

/-- Truncate to a 32-bit word. -/
def w32 (n : Nat) : Nat := n % 4294967296

/-- Rotate a 32-bit word right by `n` bits. -/
def rotr32 (n x : Nat) : Nat := w32 (x / 2 ^ n + x * 2 ^ (32 - n))

/-- Logical right shift of a 32-bit word. -/
def shr32 (n x : Nat) : Nat := x / 2 ^ n

/-- Bitwise complement of a 32-bit word. -/
def not32 (x : Nat) : Nat := x ^^^ 4294967295

/-- The 64 SHA-256 round constants. -/
def sha256K : List Nat :=
  [1116352408, 1899447441, 3049323471, 3921009573, 961987163,
   1508970993, 2453635748, 2870763221, 3624381080, 310598401,
   607225278, 1426881987, 1925078388, 2162078206, 2614888103,
   3248222580, 3835390401, 4022224774, 264347078, 604807628,
   770255983, 1249150122, 1555081692, 1996064986, 2554220882,
   2821834349, 2952996808, 3210313671, 3336571891, 3584528711,
   113926993, 338241895, 666307205, 773529912, 1294757372,
   1396182291, 1695183700, 1986661051, 2177026350, 2456956037,
   2730485921, 2820302411, 3259730800, 3345764771, 3516065817,
   3600352804, 4094571909, 275423344, 430227734, 506948616,
   659060556, 883997877, 958139571, 1322822218, 1537002063,
   1747873779, 1955562222, 2024104815, 2227730452, 2361852424,
   2428436474, 2756734187, 3204031479, 3329325298]

/-- The SHA-256 initial hash value. -/
def sha256H0 : List Nat :=
  [1779033703, 3144134277, 1013904242, 2773480762, 1359893119,
   2600822924, 528734635, 1541459225]

/-- Big-endian 8-byte encoding of a natural number. -/
def be8 (n : Nat) : List Nat :=
  [n / 2 ^ 56 % 256, n / 2 ^ 48 % 256, n / 2 ^ 40 % 256, n / 2 ^ 32 % 256,
   n / 2 ^ 24 % 256, n / 2 ^ 16 % 256, n / 2 ^ 8 % 256, n % 256]

/-- SHA-256 message padding: a 0x80 byte, zeros to 56 mod 64, then the
bit length as 8 big-endian bytes. -/
def sha256_pad (msg : List Nat) : List Nat :=
  let L := msg.length
  let k := (56 + 64 - (L + 1) % 64) % 64
  msg ++ [0x80] ++ List.replicate k 0 ++ be8 (8 * L)

/-- Split a byte sequence into 64-byte chunks; the fuel argument is an
upper bound on the number of chunks (the length of the list suffices). -/
def chunks64 : Nat → List Nat → List (List Nat)
  | 0, _ => []
  | _, [] => []
  | fuel + 1, a :: rest => ((a :: rest).take 64) :: chunks64 fuel ((a :: rest).drop 64)

/-- Combine bytes into big-endian 32-bit words. -/
def words_of_block : List Nat → List Nat
  | b0 :: b1 :: b2 :: b3 :: rest =>
      (b0 * 2 ^ 24 + b1 * 2 ^ 16 + b2 * 2 ^ 8 + b3) :: words_of_block rest
  | _ => []

/-- Extend the 16 words of a chunk to the 64-entry message schedule. -/
def sha256_extend (ws : Array Nat) : Array Nat :=
  (List.range 48).foldl (fun a i =>
    let w16 := a.getD i 0
    let w15 := a.getD (i + 1) 0
    let w7 := a.getD (i + 9) 0
    let w2 := a.getD (i + 14) 0
    let s0 := (rotr32 7 w15) ^^^ (rotr32 18 w15) ^^^ (shr32 3 w15)
    let s1 := (rotr32 17 w2) ^^^ (rotr32 19 w2) ^^^ (shr32 10 w2)
    a.push (w32 (w16 + s0 + w7 + s1))) ws

/-- One SHA-256 compression round on the eight-word working state. -/
def sha256_round (st : List Nat) (kw : Nat × Nat) : List Nat :=
  match st with
  | [a, b, c, d, e, f, g, h] =>
    let S1 := (rotr32 6 e) ^^^ (rotr32 11 e) ^^^ (rotr32 25 e)
    let ch := (e &&& f) ^^^ ((not32 e) &&& g)
    let temp1 := w32 (h + S1 + ch + kw.1 + kw.2)
    let S0 := (rotr32 2 a) ^^^ (rotr32 13 a) ^^^ (rotr32 22 a)
    let maj := (a &&& b) ^^^ (a &&& c) ^^^ (b &&& c)
    let temp2 := w32 (S0 + maj)
    [w32 (temp1 + temp2), a, b, c, w32 (d + temp1), e, f, g]
  | _ => st

/-- Process one 64-byte chunk. -/
def sha256_block (H : List Nat) (block : List Nat) : List Nat :=
  let ws := sha256_extend (Array.mk (words_of_block block))
  let st := (List.zip sha256K ws.toList).foldl sha256_round H
  List.zipWith (fun h v => w32 (h + v)) H st

/-- SHA-256 digest of a byte sequence, as eight 32-bit words. -/
def sha256_words (msg : List Nat) : List Nat :=
  let padded := sha256_pad msg
  (chunks64 padded.length padded).foldl sha256_block sha256H0

/-- Lowercase hexadecimal digit. -/
def hexDigit (d : Nat) : Char := Char.ofNat (if d < 10 then 48 + d else 87 + d)

/-- Fixed-width lowercase hexadecimal rendering. -/
def hexChars : Nat → Nat → List Char
  | 0, _ => []
  | width + 1, n => hexChars width (n / 16) ++ [hexDigit (n % 16)]

/-- SHA-256 digest of a byte sequence rendered as lowercase hex, as
fc::sha256 renders itself when cast to std::string. -/
def sha256_hex (msg : List Nat) : String :=
  String.mk ((sha256_words msg).foldr (fun w acc => hexChars 8 w ++ acc) [])

/-- The bytes of a string.  The account names and configuration lines
hashed by the plugin are ASCII, where codepoints and UTF-8 bytes agree. -/
def strBytes (s : String) : List Nat := s.data.map Char.toNat

/- ------------------------------------------------------------------ -/
/- String ordering: std::sort on std::string compares byte sequences   -/
/- lexicographically.                                                  -/
/- ------------------------------------------------------------------ -/

/-- Lexicographic order on character lists, the order std::string uses. -/
def lexLe : List Char → List Char → Bool
  | [], _ => true
  | _ :: _, [] => false
  | a :: as, b :: bs => if a < b then true else if b < a then false else lexLe as bs

/-- The order in which the plugin sorts account-name strings. -/
def string_le (a b : String) : Prop := lexLe a.data b.data = true

instance : DecidableRel string_le := fun a b =>
  inferInstanceAs (Decidable (lexLe a.data b.data = true))

/- ------------------------------------------------------------------ -/
/- blacklist_plugin.cpp                                                -/
/- ------------------------------------------------------------------ -/

/-- The line built for each blacklisted actor by the lambda inside
`generate_hash`: stringStream composes "actor-blacklist=", the element
and a newline. -/
def blacklist_line (element : String) : String := "actor-blacklist=" ++ element ++ "\n"

/-- `blacklist_plugin_impl::generate_hash`, with the in-place sort of
the by-reference argument made explicit: the result pairs the returned
hash with the state of the caller vector after the call.  The source
sorts `actors`, maps `blacklist_line` over it with `apply`, concatenates
with std::accumulate starting from the empty string, and hashes with
fc::sha256::hash. -/
def generate_hash_impl (actors : List String) : String × List String :=
  let sorted := List.insertionSort string_le actors
  let output := sorted.map blacklist_line
  let actor_str := output.foldl (· ++ ·) ""
  (sha256_hex (strBytes actor_str), sorted)

/-- The hash returned by `blacklist_plugin_impl::generate_hash`. -/
def generate_hash (actors : List String) : String := (generate_hash_impl actors).1

/-- The canonical serialization as the spec words it: the concatenation
of lines actor-blacklist=name followed by a newline, the names taken in
ascending string order. -/
def spec_canonical_serialization (A : List String) : String :=
  String.join ((List.insertionSort string_le A).map (fun a => "actor-blacklist=" ++ a ++ "\n"))

/-- The canonical fingerprint as the spec words it: SHA-256 of the
canonical serialization, rendered as lowercase hex. -/
def spec_canonical_fingerprint (A : List String) : String :=
  sha256_hex (strBytes (spec_canonical_serialization A))

/-- The result record of `blacklist_plugin::check_hash`. -/
structure blacklist_stats where
  local_hash : String
  ecaf_hash : String
  submitted_hash : String
  msg : String

/-- `blacklist_plugin::check_hash`.  The local and on-chain account
lists come from the controller and the on-chain table and are inputs
here; the submitted hash is whatever `get_submitted_hash` returned. -/
def check_hash (local_blacklist_accounts onchain_blacklist_accounts : List String)
    (submitted : String) : blacklist_stats :=
  let lh := generate_hash local_blacklist_accounts
  let eh := generate_hash onchain_blacklist_accounts
  { local_hash := lh
    ecaf_hash := eh
    submitted_hash := submitted
    msg :=
      if lh ≠ eh then "local and ecaf hash MISMATCH!"
      else if lh ≠ submitted then "local and submitted hash MISMATCH!"
      else "OK" }

/-- The parameter record passed to the read-only chain API. -/
structure get_table_rows_params where
  code : String
  scope : String
  table : String
  limit : Nat
  json : Bool

/-- The parameters `get_submitted_hash` fills in before reading the
table. -/
def submitted_hash_params : get_table_rows_params :=
  { code := "theblacklist", scope := "theblacklist", table := "producerhash",
    limit := 100, json := true }

/-- A row of the producerhash table, with the two fields the code
reads: obj["producer"] and obj["hash"]. -/
structure producerhash_row where
  producer : String
  hash : String

/-- The row loop of `blacklist_plugin_impl::get_submitted_hash`: hash
starts empty, and the loop breaks at the first row whose producer field
equals the configured producer name. -/
def submitted_hash_loop (producer_name : String) : List producerhash_row → String
  | [] => ""
  | row :: rest =>
      if row.producer = producer_name then row.hash
      else submitted_hash_loop producer_name rest

/-- `blacklist_plugin_impl::get_submitted_hash`, with the rows returned
by the read-only API as input. -/
def get_submitted_hash (producer_name : String) (rows : List producerhash_row) : String :=
  submitted_hash_loop producer_name rows

/- ------------------------------------------------------------------ -/
/- elasticsearch_plugin.cpp: bounded stream queue                      -/
/- ------------------------------------------------------------------ -/

/-- The state touched by `elasticsearch_plugin_impl::queue`: one stream
queue and the shared adaptive sleep (an int in the source). -/
structure queue_state (E : Type) where
  queue : List E
  queue_sleep_time : Int

/-- The observable outcome of one producer enqueue: the new state, the
duration the producer slept for (when the queue was over capacity) and
whether the over-cap warning was logged. -/
structure enqueue_result (E : Type) where
  state : queue_state E
  slept_for : Option Int
  warned : Bool

/-- `elasticsearch_plugin_impl::queue`: if the queue size exceeds
max_queue_size the sleep grows by 10 and the producer sleeps that long,
warning when the grown sleep exceeds 1000; otherwise the sleep shrinks
by 10 floored at 0.  The event is pushed in both cases. -/
def enqueue {E : Type} (max_queue_size : Nat) (s : queue_state E) (e : E) : enqueue_result E :=
  let queue_size := s.queue.length
  if queue_size > max_queue_size then
    let t := s.queue_sleep_time + 10
    { state := { queue := s.queue ++ [e], queue_sleep_time := t }
      slept_for := some t
      warned := decide (t > 1000) }
  else
    let t0 := s.queue_sleep_time - 10
    let t := if t0 < 0 then 0 else t0
    { state := { queue := s.queue ++ [e], queue_sleep_time := t }
      slept_for := none
      warned := false }

/-- Repeated enqueue of the same event, used to exhibit reachable
states of the producer loop. -/
def enqueue_iter {E : Type} (max_queue_size : Nat) (e : E) : Nat → queue_state E → queue_state E
  | 0, s => s
  | k + 1, s => enqueue_iter max_queue_size e k (enqueue max_queue_size s e).state

/- ------------------------------------------------------------------ -/
/- elasticsearch_plugin.cpp: ABI cache                                 -/
/- ------------------------------------------------------------------ -/

/-- An entry of the ABI cache.  Account names are 64-bit values,
modelled as Nat; timestamps are fc::time_point microsecond counts,
modelled as Nat; the decoded serializer is abstract. -/
structure abi_cache (σ : Type) where
  account : Nat
  last_accessed : Nat
  serializer : Option σ

/-- The smallest last-access timestamp in the cache, i.e. the key of
begin() of the by_last_access index. -/
def min_last_accessed {σ : Type} : List (abi_cache σ) → Nat
  | [] => 0
  | [e] => e.last_accessed
  | e :: e2 :: rest => min e.last_accessed (min_last_accessed (e2 :: rest))

/-- `elasticsearch_plugin_impl::purge_abi_cache`: when the cache has
reached the configured bound, erase the entry at the begin() of the
by_last_access ordering, i.e. an entry with the smallest last-access
timestamp. -/
def purge_abi_cache {σ : Type} (abi_cache_size : Nat) (c : List (abi_cache σ)) : List (abi_cache σ) :=
  if c.length < abi_cache_size then c
  else c.eraseP (fun e => e.last_accessed == min_last_accessed c)

/-- The multi_index modify of the found entry on a cache hit: set its
last-access timestamp to now. -/
def touch_entry {σ : Type} (n now : Nat) (c : List (abi_cache σ)) : List (abi_cache σ) :=
  c.map (fun e => if e.account == n then { e with last_accessed := now } else e)

/-- `elasticsearch_plugin_impl::get_abi_serializer`.  `good` is
n.good(); `fetched` abstracts the document-store search plus abi_def
decoding plus abi_serializer construction: it is some serializer when
`search_abi_by_account` found exactly one hit and the conversion
succeeded, none otherwise (in both failure cases the source returns an
empty optional and caches nothing).  On a hit the found entry is
touched and its stored serializer returned; on a successful fetch the
cache is purged to make room and the new entry inserted with
last_accessed = now. -/
def get_abi_serializer {σ : Type} (now abi_cache_size : Nat) (fetched : Option σ)
    (n : Nat) (good : Bool) (c : List (abi_cache σ)) : Option σ × List (abi_cache σ) :=
  if good then
    match c.find? (fun e => e.account == n) with
    | some itr => (itr.serializer, touch_entry n now c)
    | none =>
      match fetched with
      | some abis =>
          (some abis, purge_abi_cache abi_cache_size c ++ [⟨n, now, some abis⟩])
      | none => (none, c)
  else (none, c)

/- ------------------------------------------------------------------ -/
/- elasticsearch_plugin.cpp: start-block gate                          -/
/- ------------------------------------------------------------------ -/

/-- Document kind tags of the plugin. -/
def block_states_type : String := "block_states"

/-- Document kind tag for whole blocks. -/
def blocks_type : String := "blocks"

/-- The gate state of the plugin. -/
structure es_state where
  start_block_num : Nat
  start_block_reached : Bool

/-- Document kinds written by `_process_accepted_block`: one
block_states document, then one blocks document. -/
def accepted_block_writes : List String := [block_states_type, blocks_type]

/-- `elasticsearch_plugin_impl::process_accepted_block`: trip the gate
on the first block whose number reaches start_block_num, and write the
two documents whenever the gate is open. -/
def process_accepted_block (s : es_state) (block_num : Nat) : es_state × List String :=
  let s1 :=
    if s.start_block_reached = false then
      if s.start_block_num ≤ block_num then { s with start_block_reached := true } else s
    else s
  if s1.start_block_reached then (s1, accepted_block_writes) else (s1, [])

/-- `process_accepted_transaction`: the body is stubbed out; the gate
is untouched and nothing is written. -/
def process_accepted_transaction (s : es_state) : es_state × List String := (s, [])

/-- `process_applied_transaction`: the gate is read but not written,
and the guarded body is stubbed out. -/
def process_applied_transaction (s : es_state) : es_state × List String := (s, [])

/-- `process_irreversible_block`: the gate is read but not written, and
the guarded body is stubbed out. -/
def process_irreversible_block (s : es_state) : es_state × List String := (s, [])

/- ------------------------------------------------------------------ -/
/- elasticsearch_client.cpp: document store client                     -/
/- ------------------------------------------------------------------ -/

/-- The status test of elasticsearch_client.cpp. -/
def is_2xx (status_code : Int) : Bool := status_code > 199 && status_code < 300

/-- An HTTP response: status code and body text. -/
structure Response where
  status_code : Int
  text : String

/-- The error kinds the client raises. -/
inductive es_error
  | response_code (code : Int) (text : String)
  | bulk_fail (errors : Nat)
deriving DecidableEq

/-- `elasticsearch_client::index` on a given backend response. -/
def client_index (resp : Response) : Except es_error Unit :=
  if is_2xx resp.status_code then Except.ok ()
  else Except.error (es_error.response_code resp.status_code resp.text)

/-- `elasticsearch_client::init_index` on a given backend response. -/
def client_init_index (resp : Response) : Except es_error Unit :=
  if is_2xx resp.status_code then Except.ok ()
  else Except.error (es_error.response_code resp.status_code resp.text)

/-- `elasticsearch_client::count_doc` on a given backend response;
`parse_count` abstracts fc JSON parsing of the count field. -/
def client_count_doc (parse_count : String → Nat) (resp : Response) : Except es_error Nat :=
  if is_2xx resp.status_code then Except.ok (parse_count resp.text)
  else Except.error (es_error.response_code resp.status_code resp.text)

/-- `elasticsearch_client::search` on a given backend response;
`parse_json` abstracts fc JSON parsing of the body. -/
def client_search {V : Type} (parse_json : String → V) (resp : Response) : Except es_error V :=
  if is_2xx resp.status_code then Except.ok (parse_json resp.text)
  else Except.error (es_error.response_code resp.status_code resp.text)

/-- `elasticsearch_client::delete_by_query` on a given backend
response. -/
def client_delete_by_query (resp : Response) : Except es_error Unit :=
  if is_2xx resp.status_code then Except.ok ()
  else Except.error (es_error.response_code resp.status_code resp.text)

/-- `elasticsearch_client::delete_index` on a given backend response:
the request is performed and the status is not inspected at all, so a
404 for an absent index is treated as success. -/
def client_delete_index (_resp : Response) : Except es_error Unit :=
  Except.ok ()

/- ------------------------------------------------------------------ -/
/- Producer/consumer pipeline as an interleaving model                 -/
/- ------------------------------------------------------------------ -/

/-- The mutable state shared by the producer callbacks and the
consumer: the four stream queues, the shared adaptive sleep, and the
log of events already processed by the consumer. -/
structure pipeline_state where
  transaction_metadata_queue : List Nat
  transaction_trace_queue : List Nat
  block_state_queue : List Nat
  irreversible_block_state_queue : List Nat
  processed : List Nat
  queue_sleep_time : Int

/-- The initial pipeline state: empty queues, sleep 0, nothing
processed. -/
def pipeline_init : pipeline_state :=
  { transaction_metadata_queue := []
    transaction_trace_queue := []
    block_state_queue := []
    irreversible_block_state_queue := []
    processed := []
    queue_sleep_time := 0 }

/-- One atomic step of an interleaved execution: one of the four
producer callbacks runs `queue` to completion, or the consumer performs
one drain cycle of `consume_blocks`. -/
inductive pipeline_step
  | accepted_transaction (e : Nat)
  | applied_transaction (e : Nat)
  | accepted_block (e : Nat)
  | applied_irreversible_block (e : Nat)
  | consume_blocks

/-- The transition function of the interleaving model.  Producer steps
run `enqueue` on their stream queue, sharing queue_sleep_time.  The
consumer step swaps all four queues into the processing buffers and
processes them in the fixed order of `consume_blocks`: traces,
metadata, accepted blocks, irreversible blocks. -/
def pipeline_tick (max_queue_size : Nat) (s : pipeline_state) : pipeline_step → pipeline_state
  | pipeline_step.accepted_transaction e =>
      let r := enqueue max_queue_size ⟨s.transaction_metadata_queue, s.queue_sleep_time⟩ e
      { s with transaction_metadata_queue := r.state.queue
               queue_sleep_time := r.state.queue_sleep_time }
  | pipeline_step.applied_transaction e =>
      let r := enqueue max_queue_size ⟨s.transaction_trace_queue, s.queue_sleep_time⟩ e
      { s with transaction_trace_queue := r.state.queue
               queue_sleep_time := r.state.queue_sleep_time }
  | pipeline_step.accepted_block e =>
      let r := enqueue max_queue_size ⟨s.block_state_queue, s.queue_sleep_time⟩ e
      { s with block_state_queue := r.state.queue
               queue_sleep_time := r.state.queue_sleep_time }
  | pipeline_step.applied_irreversible_block e =>
      let r := enqueue max_queue_size ⟨s.irreversible_block_state_queue, s.queue_sleep_time⟩ e
      { s with irreversible_block_state_queue := r.state.queue
               queue_sleep_time := r.state.queue_sleep_time }
  | pipeline_step.consume_blocks =>
      { s with processed := s.processed ++ s.transaction_trace_queue
                              ++ s.transaction_metadata_queue
                              ++ s.block_state_queue
                              ++ s.irreversible_block_state_queue
               transaction_metadata_queue := []
               transaction_trace_queue := []
               block_state_queue := []
               irreversible_block_state_queue := [] }

/-- Run an interleaved execution from the initial state. -/
def pipeline_run (max_queue_size : Nat) (steps : List pipeline_step) : pipeline_state :=
  steps.foldl (pipeline_tick max_queue_size) pipeline_init

/-- The events handed to enqueue callbacks along an execution, in
order. -/
def enqueued_events : List pipeline_step → List Nat
  | [] => []
  | pipeline_step.accepted_transaction e :: r => e :: enqueued_events r
  | pipeline_step.applied_transaction e :: r => e :: enqueued_events r
  | pipeline_step.accepted_block e :: r => e :: enqueued_events r
  | pipeline_step.applied_irreversible_block e :: r => e :: enqueued_events r
  | pipeline_step.consume_blocks :: r => enqueued_events r

/-- How many times event `e` is present in the system: processed plus
still queued. -/
def pipeline_count (s : pipeline_state) (e : Nat) : Nat :=
  List.count e s.processed
    + List.count e s.transaction_metadata_queue
    + List.count e s.transaction_trace_queue
    + List.count e s.block_state_queue
    + List.count e s.irreversible_block_state_queue

/- ------------------------------------------------------------------ -/
/- Order facts about the string comparison used by std::sort           -/
/- ------------------------------------------------------------------ -/

theorem lexLe_total : ∀ a b : List Char, lexLe a b = true ∨ lexLe b a = true
  | [], _ => Or.inl rfl
  | _ :: _, [] => Or.inr rfl
  | a :: as, b :: bs => by
    rcases lt_trichotomy a b with h | h | h
    · left; simp [lexLe, h]
    · subst h
      rcases lexLe_total as bs with ih | ih
      · left; simp [lexLe, lt_irrefl, ih]
      · right; simp [lexLe, lt_irrefl, ih]
    · right; simp [lexLe, h]

theorem lexLe_trans : ∀ a b c : List Char,
    lexLe a b = true → lexLe b c = true → lexLe a c = true
  | [], _, _, _, _ => rfl
  | _ :: _, [], _, h, _ => by simp [lexLe] at h
  | _ :: _, _ :: _, [], _, h => by simp [lexLe] at h
  | a :: as, b :: bs, c :: cs, h1, h2 => by
    simp only [lexLe] at h1 h2 ⊢
    rcases lt_trichotomy a b with hab | hab | hab
    · rcases lt_trichotomy b c with hbc | hbc | hbc
      · simp [lt_trans hab hbc]
      · subst hbc; simp [hab]
      · rcases lt_trichotomy a c with hac | hac | hac
        · simp [hac]
        · subst hac; simp [hab, not_lt_of_gt hab] at h2 ⊢
        · simp [not_lt_of_gt hbc, hbc] at h2
    · subst hab
      simp [lt_irrefl] at h1
      rcases lt_trichotomy a c with hac | hac | hac
      · simp [hac]
      · subst hac
        simp [lt_irrefl] at h2 ⊢
        exact lexLe_trans as bs cs h1 h2
      · simp [not_lt_of_gt hac, hac] at h2 ⊢
    · simp [not_lt_of_gt hab, hab] at h1

theorem lexLe_antisymm : ∀ a b : List Char,
    lexLe a b = true → lexLe b a = true → a = b
  | [], [], _, _ => rfl
  | [], _ :: _, _, h => by simp [lexLe] at h
  | _ :: _, [], h, _ => by simp [lexLe] at h
  | a :: as, b :: bs, h1, h2 => by
    simp only [lexLe] at h1 h2
    rcases lt_trichotomy a b with hab | hab | hab
    · simp [not_lt_of_gt hab, hab] at h2
    · subst hab
      simp [lt_irrefl] at h1 h2
      rw [lexLe_antisymm as bs h1 h2]
    · simp [not_lt_of_gt hab, hab] at h1

instance : IsTotal String string_le :=
  ⟨fun a b => lexLe_total a.data b.data⟩

instance : IsTrans String string_le :=
  ⟨fun a b c => lexLe_trans a.data b.data c.data⟩

instance : IsAntisymm String string_le :=
  ⟨fun a b h1 h2 => String.ext (lexLe_antisymm a.data b.data h1 h2)⟩

theorem sort_strings_sorted (l : List String) :
    List.Sorted string_le (List.insertionSort string_le l) :=
  List.sorted_insertionSort string_le l

theorem sort_strings_eq_of_perm {A P : List String} (h : A.Perm P) :
    List.insertionSort string_le A = List.insertionSort string_le P :=
  List.eq_of_perm_of_sorted
    ((List.perm_insertionSort string_le A).trans (h.trans (List.perm_insertionSort string_le P).symm))
    (sort_strings_sorted A) (sort_strings_sorted P)

/- ------------------------------------------------------------------ -/
/- Blacklist claims                                                    -/
/- ------------------------------------------------------------------ -/

/-- C1: generate_hash returns the SHA-256 digest, rendered as lowercase
hex, of the concatenation of the lines actor-blacklist=name followed by
a newline taken in ascending string order; for the input
[bob, alice, carol] the hashed bytes are exactly the canonical string
of the three lines with alice, bob, carol in order. -/
theorem generate_hash_is_canonical_fingerprint :
    (∀ A : List String, generate_hash A = spec_canonical_fingerprint A) ∧
      spec_canonical_serialization ["bob", "alice", "carol"] =
        "actor-blacklist=alice\nactor-blacklist=bob\nactor-blacklist=carol\n" := by
  constructor
  · intro A; rfl
  · decide

/-- C2: the blacklist fingerprint is invariant under any permutation of
the input account list, and equals the fingerprint of the sorted list. -/
theorem generate_hash_perm_invariant (A P : List String) (h : A.Perm P) :
    generate_hash A = generate_hash P ∧
      generate_hash A = generate_hash (List.insertionSort string_le A) := by
  have key : ∀ {X Y : List String}, X.Perm Y → generate_hash X = generate_hash Y := by
    intro X Y hp
    unfold generate_hash generate_hash_impl
    rw [sort_strings_eq_of_perm hp]
  exact ⟨key h, key (List.perm_insertionSort string_le A).symm⟩

/-- Witness for C2 at a concrete permutation. -/
theorem generate_hash_perm_invariant_witness :
    List.Perm ["bob", "alice"] ["alice", "bob"] ∧
      (generate_hash ["bob", "alice"] = generate_hash ["alice", "bob"] ∧
        generate_hash ["bob", "alice"] =
          generate_hash (List.insertionSort string_le ["bob", "alice"])) :=
  ⟨by decide, generate_hash_perm_invariant ["bob", "alice"] ["alice", "bob"] (by decide)⟩

/-- C3: the message of check_hash is determined by the three computed
hashes: ecaf mismatch dominates, then submitted mismatch, else OK; and
the three hash fields are the local fingerprint, the on-chain
fingerprint and the submitted hash. -/
theorem check_hash_message (la oc : List String) (sub : String) :
    (check_hash la oc sub).local_hash = generate_hash la ∧
    (check_hash la oc sub).ecaf_hash = generate_hash oc ∧
    (check_hash la oc sub).submitted_hash = sub ∧
    (check_hash la oc sub).msg =
      (if (check_hash la oc sub).local_hash ≠ (check_hash la oc sub).ecaf_hash
       then "local and ecaf hash MISMATCH!"
       else if (check_hash la oc sub).local_hash ≠ (check_hash la oc sub).submitted_hash
       then "local and submitted hash MISMATCH!"
       else "OK") :=
  ⟨rfl, rfl, rfl, rfl⟩

/-- C9: get_submitted_hash reads the producerhash table with the fixed
parameters and returns the hash field of the first row whose producer
field equals the configured producer name, the empty string when no row
matches. -/
theorem get_submitted_hash_first_match :
    submitted_hash_params = { code := "theblacklist", scope := "theblacklist",
                              table := "producerhash", limit := 100, json := true } ∧
    ∀ (producer_name : String) (rows : List producerhash_row),
      get_submitted_hash producer_name rows =
        (match rows.find? (fun r => r.producer == producer_name) with
         | some r => r.hash
         | none => "") := by
  refine ⟨rfl, fun pname rows => ?_⟩
  induction rows with
  | nil => rfl
  | cons row rest ih =>
    by_cases h : row.producer = pname
    · rw [List.find?_cons_of_pos _ (by simp [h])]
      simp [get_submitted_hash, submitted_hash_loop, h]
    · rw [List.find?_cons_of_neg _ (by simp [h])]
      simpa [get_submitted_hash, submitted_hash_loop, h] using ih

/-- C10: generate_hash sorts its by-reference argument in place: after
the call the caller vector holds the same multiset of names arranged in
ascending string order, and the returned hash is generate_hash of the
original list. -/
theorem generate_hash_sorts_in_place (A : List String) :
    ((generate_hash_impl A).2).Perm A ∧
      List.Sorted string_le (generate_hash_impl A).2 ∧
      (generate_hash_impl A).1 = generate_hash A :=
  ⟨List.perm_insertionSort string_le A, sort_strings_sorted A, rfl⟩

/- ------------------------------------------------------------------ -/
/- Document store client claims                                        -/
/- ------------------------------------------------------------------ -/

theorem is_2xx_false_iff (c : Int) : is_2xx c = false ↔ (c < 200 ∨ 299 < c) := by
  simp only [is_2xx, Bool.and_eq_false_iff, decide_eq_false_iff_not, not_lt]
  omega

/-- C7: each of index, init_index, count_doc, search and delete_by_query
raises a response-code error carrying the status and body exactly when
the status code lies outside 200 to 299, while delete_index never
inspects the status and succeeds even on 404 for an absent index. -/
theorem client_response_code_discipline (resp : Response) :
    (client_index resp = Except.error (es_error.response_code resp.status_code resp.text)
        ↔ (resp.status_code < 200 ∨ 299 < resp.status_code)) ∧
    (client_init_index resp = Except.error (es_error.response_code resp.status_code resp.text)
        ↔ (resp.status_code < 200 ∨ 299 < resp.status_code)) ∧
    (∀ parse_count : String → Nat,
      client_count_doc parse_count resp
          = Except.error (es_error.response_code resp.status_code resp.text)
        ↔ (resp.status_code < 200 ∨ 299 < resp.status_code)) ∧
    (∀ (V : Type) (parse_json : String → V),
      client_search parse_json resp
          = Except.error (es_error.response_code resp.status_code resp.text)
        ↔ (resp.status_code < 200 ∨ 299 < resp.status_code)) ∧
    (client_delete_by_query resp = Except.error (es_error.response_code resp.status_code resp.text)
        ↔ (resp.status_code < 200 ∨ 299 < resp.status_code)) ∧
    client_delete_index resp = Except.ok () := by
  have key : ∀ {β : Type} (x : β),
      ((if is_2xx resp.status_code then Except.ok x
        else Except.error (es_error.response_code resp.status_code resp.text))
          = Except.error (es_error.response_code resp.status_code resp.text)
        ↔ (resp.status_code < 200 ∨ 299 < resp.status_code)) := by
    intro β x
    rcases h2 : is_2xx resp.status_code with _ | _
    · simp [h2, (is_2xx_false_iff resp.status_code).mp h2]
    · have hr : ¬ (resp.status_code < 200 ∨ 299 < resp.status_code) := by
        intro hc
        have hf := (is_2xx_false_iff resp.status_code).mpr hc
        rw [h2] at hf
        cases hf
      simp [h2, hr]
  exact ⟨key (), key (), fun pc => key (pc resp.text), fun V pj => key (pj resp.text),
         key (), rfl⟩

/- ------------------------------------------------------------------ -/
/- Bounded queue claims                                                -/
/- ------------------------------------------------------------------ -/

theorem enqueue_iter_overfull {E : Type} (e : E) : ∀ (k : Nat) (q : List E) (t : Int),
    q ≠ [] → (enqueue_iter 0 e k { queue := q, queue_sleep_time := t }).queue_sleep_time
      = t + 10 * k
  | 0, q, t, _ => by simp [enqueue_iter]
  | k + 1, q, t, h => by
    have hq : q.length > 0 := List.length_pos.mpr h
    have hstep : (enqueue 0 { queue := q, queue_sleep_time := t } e).state
        = { queue := q ++ [e], queue_sleep_time := t + 10 } := by
      simp [enqueue, hq]
    simp only [enqueue_iter, hstep]
    rw [enqueue_iter_overfull e k (q ++ [e]) (t + 10) (by simp)]
    push_cast
    ring

set_option maxRecDepth 4000 in
/-- C4 counterexample: the adaptive sleep has no 1000 ms cap.  With
max_queue_size = 0, after one in-capacity enqueue and 101 over-capacity
enqueues the sleep reaches 1010 ms, outside [0, 1000]. -/
theorem enqueue_sleep_exceeds_cap :
    (enqueue_iter 0 (0 : Nat) 102 { queue := [], queue_sleep_time := 0 }).queue_sleep_time
        = 1010 ∧ ¬ ((1010 : Int) ≤ 1000) := by
  refine ⟨?_, by decide⟩
  have h2 : enqueue_iter 0 (0 : Nat) 102 { queue := [], queue_sleep_time := 0 }
      = enqueue_iter 0 (0 : Nat) 101 { queue := [0], queue_sleep_time := 0 } := rfl
  rw [h2, enqueue_iter_overfull (0 : Nat) 101 [0] 0 (by simp)]
  norm_num

/-- C4 amended: each enqueue pushes the event; an over-capacity enqueue
grows the sleep by 10 ms, sleeps that long and warns exactly when the
grown sleep exceeds 1000 ms; an in-capacity enqueue shrinks the sleep by
10 ms floored at 0; the sleep stays nonnegative, but it has no upper
cap. -/
theorem enqueue_adaptive_sleep {E : Type} (max_queue_size : Nat) (s : queue_state E) (e : E)
    (h : 0 ≤ s.queue_sleep_time) :
    (enqueue max_queue_size s e).state.queue = s.queue ++ [e] ∧
    (s.queue.length > max_queue_size →
      (enqueue max_queue_size s e).state.queue_sleep_time = s.queue_sleep_time + 10 ∧
      (enqueue max_queue_size s e).slept_for = some (s.queue_sleep_time + 10) ∧
      ((enqueue max_queue_size s e).warned = true ↔ 1000 < s.queue_sleep_time + 10)) ∧
    (¬ s.queue.length > max_queue_size →
      (enqueue max_queue_size s e).state.queue_sleep_time =
        (if s.queue_sleep_time - 10 < 0 then 0 else s.queue_sleep_time - 10) ∧
      (enqueue max_queue_size s e).slept_for = none ∧
      (enqueue max_queue_size s e).warned = false) ∧
    0 ≤ (enqueue max_queue_size s e).state.queue_sleep_time := by
  by_cases hq : s.queue.length > max_queue_size
  · refine ⟨by simp [enqueue, hq], fun _ => ⟨by simp [enqueue, hq], by simp [enqueue, hq],
      by simp [enqueue, hq]⟩, fun hn => absurd hq hn, ?_⟩
    have h1 : (enqueue max_queue_size s e).state.queue_sleep_time = s.queue_sleep_time + 10 := by
      simp [enqueue, hq]
    rw [h1]; omega
  · refine ⟨by simp [enqueue, hq], fun hp => absurd hp hq, fun _ => ⟨by simp [enqueue, hq],
      by simp [enqueue, hq], by simp [enqueue, hq]⟩, ?_⟩
    have h1 : (enqueue max_queue_size s e).state.queue_sleep_time
        = (if s.queue_sleep_time - 10 < 0 then 0 else s.queue_sleep_time - 10) := by
      simp [enqueue, hq]
    rw [h1]; split <;> omega

/-- Witness for the amended C4 at a concrete over-capacity state. -/
theorem enqueue_adaptive_sleep_witness :
    (0 : Int) ≤ 20 ∧
      ((enqueue 1 { queue := [5, 6], queue_sleep_time := 20 } (7 : Nat)).state.queue
          = [5, 6] ++ [7] ∧
        ((2 : Nat) > 1 →
          (enqueue 1 { queue := [5, 6], queue_sleep_time := 20 } (7 : Nat)).state.queue_sleep_time
              = 20 + 10 ∧
          (enqueue 1 { queue := [5, 6], queue_sleep_time := 20 } (7 : Nat)).slept_for
              = some (20 + 10) ∧
          ((enqueue 1 { queue := [5, 6], queue_sleep_time := 20 } (7 : Nat)).warned = true
              ↔ (1000 : Int) < 20 + 10)) ∧
        (¬ (2 : Nat) > 1 →
          (enqueue 1 { queue := [5, 6], queue_sleep_time := 20 } (7 : Nat)).state.queue_sleep_time
              = (if (20 : Int) - 10 < 0 then 0 else 20 - 10) ∧
          (enqueue 1 { queue := [5, 6], queue_sleep_time := 20 } (7 : Nat)).slept_for = none ∧
          (enqueue 1 { queue := [5, 6], queue_sleep_time := 20 } (7 : Nat)).warned = false) ∧
        (0 : Int) ≤ (enqueue 1 { queue := [5, 6], queue_sleep_time := 20 } (7 : Nat)).state.queue_sleep_time) :=
  ⟨by decide, enqueue_adaptive_sleep 1 { queue := [5, 6], queue_sleep_time := 20 } 7 (by decide)⟩

/- ------------------------------------------------------------------ -/
/- Start-block gate claims                                             -/
/- ------------------------------------------------------------------ -/

/-- C6: below the threshold with the gate closed nothing is written and
the gate stays closed; the first accepted block at or above the
threshold trips the gate; and no processing operation ever resets the
gate once it is true. -/
theorem start_block_gate (s : es_state) (block_num : Nat) :
    (s.start_block_reached = false → block_num < s.start_block_num →
        (process_accepted_block s block_num).2 = [] ∧
        (process_accepted_block s block_num).1.start_block_reached = false) ∧
    (s.start_block_reached = false → s.start_block_num ≤ block_num →
        (process_accepted_block s block_num).1.start_block_reached = true) ∧
    (s.start_block_reached = true →
        (process_accepted_block s block_num).1.start_block_reached = true) ∧
    (process_accepted_transaction s).1.start_block_reached = s.start_block_reached ∧
    (process_applied_transaction s).1.start_block_reached = s.start_block_reached ∧
    (process_irreversible_block s).1.start_block_reached = s.start_block_reached := by
  refine ⟨?_, ?_, ?_, rfl, rfl, rfl⟩
  · intro hf hlt
    have hnle : ¬ s.start_block_num ≤ block_num := by omega
    simp [process_accepted_block, hf, hnle]
  · intro hf hle
    simp [process_accepted_block, hf, hle]
  · intro ht
    simp [process_accepted_block, ht]

/-- Witness for C6 at concrete gate states. -/
theorem start_block_gate_witness :
    ((es_state.mk 5 false).start_block_reached = false ∧ 3 < (es_state.mk 5 false).start_block_num ∧
      (process_accepted_block (es_state.mk 5 false) 3).2 = [] ∧
      (process_accepted_block (es_state.mk 5 false) 3).1.start_block_reached = false) ∧
    ((es_state.mk 5 false).start_block_num ≤ 7 ∧
      (process_accepted_block (es_state.mk 5 false) 7).1.start_block_reached = true) ∧
    ((es_state.mk 5 true).start_block_reached = true ∧
      (process_accepted_block (es_state.mk 5 true) 2).1.start_block_reached = true) :=
  ⟨⟨rfl, by decide, (start_block_gate (es_state.mk 5 false) 3).1 rfl (by decide)⟩,
   ⟨by decide, (start_block_gate (es_state.mk 5 false) 7).2.1 rfl (by decide)⟩,
   ⟨rfl, (start_block_gate (es_state.mk 5 true) 2).2.2.1 rfl⟩⟩

/- ------------------------------------------------------------------ -/
/- ABI cache claims                                                    -/
/- ------------------------------------------------------------------ -/

theorem min_last_le {σ : Type} : ∀ (c : List (abi_cache σ)) (e : abi_cache σ),
    e ∈ c → min_last_accessed c ≤ e.last_accessed
  | [], e, h => absurd h (List.not_mem_nil e)
  | [e0], e, h => by
    rw [List.mem_singleton] at h
    subst h
    exact le_refl _
  | e0 :: e1 :: rest, e, h => by
    have hu : min_last_accessed (e0 :: e1 :: rest)
        = min e0.last_accessed (min_last_accessed (e1 :: rest)) := rfl
    rcases List.mem_cons.mp h with h0 | h1
    · subst h0
      rw [hu]
      exact min_le_left _ _
    · rw [hu]
      exact le_trans (min_le_right _ _) (min_last_le (e1 :: rest) e h1)

theorem min_last_mem {σ : Type} : ∀ (c : List (abi_cache σ)),
    c ≠ [] → ∃ e, e ∈ c ∧ e.last_accessed = min_last_accessed c
  | [], h => absurd rfl h
  | [e0], _ => ⟨e0, List.mem_singleton_self e0, rfl⟩
  | e0 :: e1 :: rest, _ => by
    have hu : min_last_accessed (e0 :: e1 :: rest)
        = min e0.last_accessed (min_last_accessed (e1 :: rest)) := rfl
    rcases min_last_mem (e1 :: rest) (by simp) with ⟨e, he, hlast⟩
    by_cases hle : e0.last_accessed ≤ min_last_accessed (e1 :: rest)
    · exact ⟨e0, List.mem_cons_self e0 _, by rw [hu, min_eq_left hle]⟩
    · refine ⟨e, List.mem_cons_of_mem e0 he, ?_⟩
      rw [hu, min_eq_right (le_of_not_le hle)]
      exact hlast

theorem purge_full {σ : Type} (bound : Nat) (c : List (abi_cache σ))
    (hfull : ¬ c.length < bound) (hne : c ≠ []) :
    ∃ m l₁ l₂, c = l₁ ++ m :: l₂ ∧ purge_abi_cache bound c = l₁ ++ l₂ ∧
      ∀ e ∈ c, m.last_accessed ≤ e.last_accessed := by
  rcases min_last_mem c hne with ⟨e, he, hlast⟩
  have hp : (fun x : abi_cache σ => x.last_accessed == min_last_accessed c) e = true := by
    simp [hlast]
  rcases @List.exists_of_eraseP _ (fun x : abi_cache σ => x.last_accessed == min_last_accessed c)
      c e he hp with ⟨m, l₁, l₂, _, hm, hceq, herase⟩
  refine ⟨m, l₁, l₂, hceq, ?_, ?_⟩
  · rw [purge_abi_cache, if_neg hfull]
    exact herase
  · intro x hx
    have hml : m.last_accessed = min_last_accessed c := by simpa using hm
    rw [hml]
    exact min_last_le c x hx

theorem find?_touch {σ : Type} (n now : Nat) : ∀ (c : List (abi_cache σ)) (itr : abi_cache σ),
    c.find? (fun e => e.account == n) = some itr →
    (touch_entry n now c).find? (fun e => e.account == n)
      = some { itr with last_accessed := now }
  | [], itr, h => by simp [List.find?] at h
  | e0 :: rest, itr, h => by
    by_cases ha : e0.account = n
    · rw [List.find?_cons_of_pos _ (by simp [ha])] at h
      injection h with h2
      subst h2
      simp only [touch_entry, List.map_cons]
      rw [if_pos (by simp [ha])]
      rw [List.find?_cons_of_pos _ (by simp [ha])]
    · rw [List.find?_cons_of_neg _ (by simp [ha])] at h
      have ih := find?_touch n now rest itr h
      simp only [touch_entry, List.map_cons] at ih ⊢
      rw [if_neg (by simp [ha])]
      rw [List.find?_cons_of_neg _ (by simp [ha])]
      exact ih

/-- C5: after any get_abi_serializer call the cache holds at most
abi_cache_size entries; a hit returns the stored serializer and touches
the hit entry, whose last-access timestamp becomes now; and an
insertion while the cache is full removes an entry whose last-access
timestamp is minimal before appending the new entry. -/
theorem get_abi_serializer_lru {σ : Type} (now bound : Nat) (fetched : Option σ)
    (n : Nat) (good : Bool) (c : List (abi_cache σ))
    (hb : 0 < bound) (hc : c.length ≤ bound) :
    ((get_abi_serializer now bound fetched n good c).2).length ≤ bound ∧
    (∀ itr, c.find? (fun e => e.account == n) = some itr → good = true →
        get_abi_serializer now bound fetched n good c = (itr.serializer, touch_entry n now c) ∧
        (touch_entry n now c).find? (fun e => e.account == n)
          = some { itr with last_accessed := now }) ∧
    (good = true → c.find? (fun e => e.account == n) = none →
      ∀ s, fetched = some s → bound ≤ c.length →
        ∃ m l₁ l₂, c = l₁ ++ m :: l₂ ∧
          (get_abi_serializer now bound fetched n good c).2
            = (l₁ ++ l₂) ++ [⟨n, now, some s⟩] ∧
          (∀ e ∈ c, m.last_accessed ≤ e.last_accessed)) := by
  cases good with
  | false =>
    refine ⟨by simpa [get_abi_serializer] using hc, ?_, ?_⟩
    · intro itr _ hg
      cases hg
    · intro hg
      cases hg
  | true =>
    cases hfind : c.find? (fun e => e.account == n) with
    | some itr0 =>
      refine ⟨?_, ?_, ?_⟩
      · have hq : (get_abi_serializer now bound fetched n true c).2 = touch_entry n now c := by
          simp [get_abi_serializer, hfind]
        rw [hq]
        simpa [touch_entry] using hc
      · intro itr hi _
        injection hi with hi2
        subst hi2
        exact ⟨by simp [get_abi_serializer, hfind], find?_touch n now c itr0 hfind⟩
      · intro _ hnone
        cases hnone
    | none =>
      cases hfetch : fetched with
      | none =>
        refine ⟨by simpa [get_abi_serializer, hfind] using hc, ?_, ?_⟩
        · intro itr hi _
          cases hi
        · intro _ _ s hs
          cases hs
      | some s0 =>
        have hres : (get_abi_serializer now bound (some s0) n true c).2
            = purge_abi_cache bound c ++ [⟨n, now, some s0⟩] := by
          simp [get_abi_serializer, hfind]
        refine ⟨?_, ?_, ?_⟩
        · by_cases hlt : c.length < bound
          · rw [hres, purge_abi_cache, if_pos hlt]
            simp only [List.length_append, List.length_cons, List.length_nil]
            omega
          · have hne : c ≠ [] := by
              intro hnil
              rw [hnil] at hlt
              simp at hlt
              omega
            rcases purge_full bound c hlt hne with ⟨m, l₁, l₂, hceq, hpurge, _⟩
            rw [hres, hpurge]
            have hlen : c.length = l₁.length + l₂.length + 1 := by
              rw [hceq]
              simp
              omega
            simp only [List.length_append, List.length_cons, List.length_nil]
            omega
        · intro itr hi _
          cases hi
        · intro _ _ s hs hfull
          injection hs with hs2
          subst hs2
          have hnlt : ¬ c.length < bound := by omega
          have hne : c ≠ [] := by
            intro hnil
            rw [hnil] at hfull
            simp at hfull
            omega
          rcases purge_full bound c hnlt hne with ⟨m, l₁, l₂, hceq, hpurge, hmin⟩
          exact ⟨m, l₁, l₂, hceq, by rw [hres, hpurge], hmin⟩

/-- Witness for C5: a full one-entry cache with a miss and a successful
fetch evicts the minimal entry and stays within the bound. -/
theorem get_abi_serializer_lru_witness :
    0 < 1 ∧ ([abi_cache.mk 2 3 (some 5)] : List (abi_cache Nat)).length ≤ 1 ∧
      (((get_abi_serializer 10 1 (some 7) 1 true [abi_cache.mk 2 3 (some 5)]).2).length ≤ 1 ∧
        (∀ itr, ([abi_cache.mk 2 3 (some 5)] : List (abi_cache Nat)).find?
              (fun e => e.account == 1) = some itr → true = true →
            get_abi_serializer 10 1 (some 7) 1 true [abi_cache.mk 2 3 (some 5)]
              = (itr.serializer, touch_entry 1 10 [abi_cache.mk 2 3 (some 5)]) ∧
            (touch_entry 1 10 [abi_cache.mk 2 3 (some 5)]).find? (fun e => e.account == 1)
              = some { itr with last_accessed := 10 }) ∧
        (true = true →
          ([abi_cache.mk 2 3 (some 5)] : List (abi_cache Nat)).find?
              (fun e => e.account == 1) = none →
          ∀ s, (some 7 : Option Nat) = some s → 1 ≤ ([abi_cache.mk 2 3 (some 5)] : List (abi_cache Nat)).length →
            ∃ m l₁ l₂, ([abi_cache.mk 2 3 (some 5)] : List (abi_cache Nat)) = l₁ ++ m :: l₂ ∧
              (get_abi_serializer 10 1 (some 7) 1 true [abi_cache.mk 2 3 (some 5)]).2
                = (l₁ ++ l₂) ++ [⟨1, 10, some s⟩] ∧
              (∀ e ∈ ([abi_cache.mk 2 3 (some 5)] : List (abi_cache Nat)),
                m.last_accessed ≤ e.last_accessed))) :=
  ⟨by decide, by decide,
    get_abi_serializer_lru 10 1 (some 7) 1 true [abi_cache.mk 2 3 (some 5)]
      (by decide) (by decide)⟩

/- ------------------------------------------------------------------ -/
/- Pipeline claims                                                     -/
/- ------------------------------------------------------------------ -/

theorem enqueue_state_queue {E : Type} (m : Nat) (s : queue_state E) (e : E) :
    (enqueue m s e).state.queue = s.queue ++ [e] := by
  by_cases h : s.queue.length > m <;> simp [enqueue, h]

theorem enqueued_events_cons (st : pipeline_step) (r : List pipeline_step) :
    enqueued_events (st :: r) = enqueued_events [st] ++ enqueued_events r := by
  cases st <;> simp [enqueued_events]

theorem tick_count (m : Nat) (s : pipeline_state) (st : pipeline_step) (e : Nat) :
    pipeline_count (pipeline_tick m s st) e
      = pipeline_count s e + List.count e (enqueued_events [st]) := by
  cases st <;>
    simp [pipeline_tick, pipeline_count, enqueued_events, enqueue_state_queue,
      List.count_append] <;>
    omega

theorem run_count : ∀ (steps : List pipeline_step) (m : Nat) (s : pipeline_state) (e : Nat),
    pipeline_count (steps.foldl (pipeline_tick m) s) e
      = pipeline_count s e + List.count e (enqueued_events steps)
  | [], _, _, _ => by simp [enqueued_events]
  | st :: rest, m, s, e => by
    rw [List.foldl_cons, run_count rest m (pipeline_tick m s st) e, tick_count,
        enqueued_events_cons st rest, List.count_append]
    omega

theorem run_append_consume (m : Nat) (steps : List pipeline_step) :
    pipeline_run m (steps ++ [pipeline_step.consume_blocks])
      = pipeline_tick m (pipeline_run m steps) pipeline_step.consume_blocks := by
  rw [pipeline_run, pipeline_run, List.foldl_append, List.foldl_cons, List.foldl_nil]

/-- C8 counterexample helper: enqueue callbacks push unconditionally,
so the accepted-block queue grows by one per producer call even with no
intervening drain. -/
theorem run_accepted_blocks_length : ∀ (k m : Nat) (s : pipeline_state),
    ((List.replicate k (pipeline_step.accepted_block 0)).foldl
        (pipeline_tick m) s).block_state_queue.length
      = s.block_state_queue.length + k
  | 0, _, _ => by simp
  | k + 1, m, s => by
    rw [List.replicate_succ, List.foldl_cons,
        run_accepted_blocks_length k m (pipeline_tick m s (pipeline_step.accepted_block 0))]
    simp [pipeline_tick, enqueue_state_queue]
    omega

/-- C8 counterexample: with max_queue_size = 1024 as the plugin
configures it, 1026 producer calls with no consumer drain in between
leave 1026 events in the block-state queue, exceeding
max_queue_size + 1: the enqueue sleeps when over capacity but then
pushes unconditionally, so nothing enforces the bound. -/
theorem pipeline_queue_exceeds_bound :
    1024 + 1 <
      (pipeline_run 1024 (List.replicate 1026
        (pipeline_step.accepted_block 0))).block_state_queue.length := by
  rw [pipeline_run, run_accepted_blocks_length 1026 1024 pipeline_init]
  simp [pipeline_init]

/-- C8 amended: in the interleaving model every event handed to an
enqueue callback stays in the system and is processed exactly as many
times as it was enqueued: at every point the count of an event among
processed plus queued equals its count among enqueued events, and after
a drain cycle all queues are empty and each event has been processed
exactly as often as it was enqueued (exactly once for distinct events).
Queue sizes, however, are not bounded by max_queue_size + 1 when the
consumer does not run between producer calls. -/
theorem pipeline_exactly_once (max_queue_size : Nat) (steps : List pipeline_step) :
    (∀ e, pipeline_count (pipeline_run max_queue_size steps) e
        = List.count e (enqueued_events steps)) ∧
    (pipeline_run max_queue_size
        (steps ++ [pipeline_step.consume_blocks])).transaction_metadata_queue = [] ∧
    (pipeline_run max_queue_size
        (steps ++ [pipeline_step.consume_blocks])).transaction_trace_queue = [] ∧
    (pipeline_run max_queue_size
        (steps ++ [pipeline_step.consume_blocks])).block_state_queue = [] ∧
    (pipeline_run max_queue_size
        (steps ++ [pipeline_step.consume_blocks])).irreversible_block_state_queue = [] ∧
    (∀ e, List.count e (pipeline_run max_queue_size
          (steps ++ [pipeline_step.consume_blocks])).processed
        = List.count e (enqueued_events steps)) := by
  have hbase : ∀ e, pipeline_count pipeline_init e = 0 := by
    intro e
    simp [pipeline_count, pipeline_init]
  have hrun : ∀ e, pipeline_count (pipeline_run max_queue_size steps) e
      = List.count e (enqueued_events steps) := by
    intro e
    rw [pipeline_run, run_count steps max_queue_size pipeline_init e, hbase]
    omega
  refine ⟨hrun, ?_, ?_, ?_, ?_, ?_⟩
  · rw [run_append_consume]
    rfl
  · rw [run_append_consume]
    rfl
  · rw [run_append_consume]
    rfl
  · rw [run_append_consume]
    rfl
  · intro e
    have hfull : pipeline_count (pipeline_run max_queue_size
        (steps ++ [pipeline_step.consume_blocks])) e
        = List.count e (enqueued_events steps) := by
      rw [run_append_consume, tick_count]
      simp [enqueued_events, hrun e]
    rw [run_append_consume] at hfull ⊢
    simpa [pipeline_count, pipeline_tick] using hfull
